import Mathlib

/-!
# Verification of the ApPlautus verse-reconstruction core

A shallow embedding of the transform implemented in `visualizer.py`
(functions `idx_by_num`, `mask_candidates`, `mask_to_dash_u`,
`reconstruct_units`, `html_escape`, `render_units`), together with proofs
about the embedded program.

Python values are modelled by the inductive type `Val`; numeric values are
modelled as integers (no claim under study involves float-specific
behaviour), and Python's rule that `bool` is a subclass of `int` is kept.
A Python function that can raise is modelled as returning `Option`,
with `Option.none` standing for a raised exception.
-/

set_option maxRecDepth 4000

namespace ApPlautus

/-- A Python value: `None`, a bool, an int, a string, a list or a dict
(a dict is a list of key/value pairs with distinct keys; lookups take the
first match). -/
inductive Val where
  | none
  | bool (b : Bool)
  | int (n : Int)
  | str (s : String)
  | list (xs : List Val)
  | dict (kvs : List (String × Val))

/-- First binding of a key in a dict's pair list. -/
def dictFind : List (String × Val) → String → Option Val
  | [], _ => Option.none
  | (k', v) :: rest, k => if k' = k then some v else dictFind rest k

def isDict : Val → Bool
  | .dict _ => true
  | _ => false

/-- Python truthiness, `bool(x)`: `None`, `False`, zero, the empty string and
empty containers are falsy; everything else is truthy. -/
def pyTruthy : Val → Bool
  | .none => false
  | .bool b => b
  | .int n => n != 0
  | .str s => s != ""
  | .list xs => !xs.isEmpty
  | .dict kvs => !kvs.isEmpty

/-- `d.get(k)`: `None` when the key is absent; raises (`Option.none`) when the
receiver is not a dict. -/
def pyGet : Val → String → Option Val
  | .dict kvs, k => some ((dictFind kvs k).getD Val.none)
  | _, _ => Option.none

/-- `d.get(k, default)`. -/
def pyGetD : Val → String → Val → Option Val
  | .dict kvs, k, d => some ((dictFind kvs k).getD d)
  | _, _, _ => Option.none

/-- `isinstance(x, (int, float))`; Python's `bool` is a subclass of `int`. -/
def isNum : Val → Bool
  | .bool _ => true
  | .int _ => true
  | _ => false

/-- `int(x)` restricted to values that satisfy `isNum` (never raises there). -/
def numToInt : Val → Int
  | .bool b => if b then 1 else 0
  | .int n => n
  | _ => 0

/-- The digit part of a Python integer literal: ASCII digits, with single
underscores allowed strictly between digits, as `int(str)` accepts
(`"1_0"` parses, `"1__0"`, `"1_"` do not). The accumulator carries the
value read so far. -/
def pyDigits : Nat → List Char → Option Nat
  | acc, [] => some acc
  | acc, c :: rest =>
    if c.isDigit then pyDigits (acc * 10 + (c.toNat - 48)) rest
    else if c = '_' then
      match rest with
      | d :: _ => if d.isDigit then pyDigits acc rest else Option.none
      | [] => Option.none
    else Option.none

/-- `int(x)` on a string: surrounding whitespace stripped, an optional
`+`/`-` sign, then a non-empty digit sequence with single underscores
between digits. (Python additionally accepts some Unicode spaces and
digits; the data under study is ASCII.) -/
def pyStrToInt (s : String) : Option Int :=
  match (s.trim).data with
  | [] => Option.none
  | c :: rest =>
    if c = '-' then
      match rest with
      | d :: _ =>
        if d.isDigit then (pyDigits 0 rest).map (fun n => -(n : Int)) else Option.none
      | [] => Option.none
    else if c = '+' then
      match rest with
      | d :: _ =>
        if d.isDigit then (pyDigits 0 rest).map (fun n => (n : Int)) else Option.none
      | [] => Option.none
    else if c.isDigit then (pyDigits 0 (c :: rest)).map (fun n => (n : Int))
    else Option.none

/-- `int(x)` in general: numbers convert, strings are parsed, anything
else — in particular `None` — raises. -/
def pyToInt : Val → Option Int
  | .bool b => some (if b then 1 else 0)
  | .int n => some n
  | .str s => pyStrToInt s
  | _ => Option.none

mutual
/-- Python `repr`, to the extent the program can reach it (strings are
rendered in single quotes without escaping). -/
def pyRepr : Val → String
  | .none => "None"
  | .bool true => "True"
  | .bool false => "False"
  | .int n => toString n
  | .str s => "\x27" ++ s ++ "\x27"
  | .list xs => "[" ++ String.intercalate ", " (pyReprList xs) ++ "]"
  | .dict kvs => "\x7b" ++ String.intercalate ", " (pyReprKVs kvs) ++ "\x7d"

def pyReprList : List Val → List String
  | [] => []
  | v :: vs => pyRepr v :: pyReprList vs

def pyReprKVs : List (String × Val) → List String
  | [] => []
  | (k, v) :: rest => ("\x27" ++ k ++ "\x27: " ++ pyRepr v) :: pyReprKVs rest
end

/-- Python `str(x)`: like `repr` except on strings, bools, ints and `None`. -/
def pyStr : Val → String
  | .str s => s
  | .none => "None"
  | .bool true => "True"
  | .bool false => "False"
  | .int n => toString n
  | .list xs => "[" ++ String.intercalate ", " (pyReprList xs) ++ "]"
  | .dict kvs => "\x7b" ++ String.intercalate ", " (pyReprKVs kvs) ++ "\x7d"

/-- `html_escape` of `visualizer.py` on an already-`str` value: the three
sequential single-character `replace` calls (`&`, then `<`, then `>`) amount
to one character-for-character pass, since no replacement string contains a
character replaced later. -/
def html_escape_str (s : String) : String :=
  String.join (s.data.map fun c =>
    if c = '&' then "&amp;" else
    if c = '<' then "&lt;" else
    if c = '>' then "&gt;" else String.mk [c])

/-- `html_escape(s)` = `str(s).replace("&","&amp;").replace("<","&lt;").replace(">","&gt;")`. -/
def html_escape (v : Val) : String :=
  html_escape_str (pyStr v)

/-- `x or []` followed by iteration, at the places where every iterated
element is immediately subjected to an attribute access (`for pair in seq`,
the items of `idx_by_num`, the syllables handed to `sorted`): a falsy value
yields the empty sequence, a list yields its elements, and any other truthy
value is treated as raising. This is observationally exact there: a truthy
string or dict is non-empty, CPython iterates it to strings (characters or
keys), and the very next `.get`/`int(...)` on that string element raises —
the model just raises one step earlier inside the same expression.
(The index-set comprehensions, where a stray iterable would NOT raise, use
`asIter` below instead.) -/
def asSeq (v : Val) : Option (List Val) :=
  if pyTruthy v then
    match v with
    | .list xs => some xs
    | _ => Option.none
  else some []

/-- `x or []` followed by Python iteration, faithful also for strings and
dicts, as in the comprehensions
`[int(i) for i in (mask.get(...) or []) if isinstance(i, (int, float))]`:
a falsy value yields nothing, a list its elements, a string its characters
(as one-character strings), a dict its keys; a truthy number raises. -/
def asIter (v : Val) : Option (List Val) :=
  if pyTruthy v then
    match v with
    | .list xs => some xs
    | .str t => some (t.data.map (fun c => Val.str (String.mk [c])))
    | .dict kvs => some (kvs.map (fun p => Val.str p.1))
    | _ => Option.none
  else some []

/-- Python dict assignment `out[k] = v` on an int-keyed table: replaces the
binding in place if the key is present, appends otherwise. -/
def assocSet : List (Int × Val) → Int → Val → List (Int × Val)
  | [], k, v => [(k, v)]
  | (k', v') :: rest, k, v =>
    if k' = k then (k, v) :: rest else (k', v') :: assocSet rest k v

/-- `tbl.get(k)` on an int-keyed table. -/
def assocFind : List (Int × Val) → Int → Option Val
  | [], _ => Option.none
  | (k', v) :: rest, k => if k' = k then some v else assocFind rest k

/-- The loop of `idx_by_num`: `n = it.get(key)` (raises when `it` is not a
dict), keep `it` under key `int(n)` when `isinstance(n, (int, float))`. -/
def idx_by_num_go (key : String) : List (Int × Val) → List Val → Option (List (Int × Val))
  | acc, [] => some acc
  | acc, it :: rest => do
    let n ← pyGet it key
    idx_by_num_go key (if isNum n then assocSet acc (numToInt n) it else acc) rest

/-- `idx_by_num(items, key)` of `visualizer.py`. -/
def idx_by_num (items : List Val) (key : String) : Option (List (Int × Val)) :=
  idx_by_num_go key [] items

/-- `mask_to_dash_u` of `visualizer.py`:
`"".join("-" if ch in "lL" else "u" if ch in "sS" else ch for ch in str(mask_str))`. -/
def mask_to_dash_u (s : String) : String :=
  String.join (s.data.map fun ch =>
    if ch = 'l' ∨ ch = 'L' then "-" else
    if ch = 's' ∨ ch = 'S' then "u" else String.mk [ch])

/-- The sort key of a syllable,
`int(s.get("syllable_number", 10**9))`: raises when `s` is not a dict or the
field does not convert. -/
def sylKey (s : Val) : Option Int := do
  pyToInt (← pyGetD s "syllable_number" (Val.int 1000000000))

/-- `sorted(sylls, key=lambda s: int(s.get("syllable_number", 10**9)))`:
keys are computed once, in input order, then a stable sort is applied.
(Any stable sort computes the same list as CPython's; insertion sort,
inserting earlier elements in front of equal keys, is used here.) -/
def sort_sylls (sylls : List Val) : Option (List Val) := do
  let keyed ← sylls.mapM (fun s => (sylKey s).map (fun k => (k, s)))
  pure ((List.insertionSort (fun p q : Int × Val => p.1 ≤ q.1) keyed).map Prod.snd)

/-- One resolved unit of `reconstruct_units`: the code builds dicts with
exactly the keys `word_number`, `variant_number`, `word_text`, `syllables`. -/
structure RUnit where
  word_number : Int
  variant_number : Int
  word_text : Val
  syllables : List Val

/-- The body of the `for pair in seq` loop of `reconstruct_units`. -/
def buildUnit (words_by : List (Int × Val)) (pair : Val) : Option RUnit := do
  let wnum ← pyToInt (← pyGet pair "word")
  let vnum ← pyToInt (← pyGet pair "variant")
  let w := (assocFind words_by wnum).getD Val.none
  if pyTruthy w then do
    let variants ← asSeq (← pyGet w "variants")
    let v_by ← idx_by_num variants "variant_number"
    let v := (assocFind v_by vnum).getD Val.none
    if pyTruthy v then do
      let sylls ← asSeq (← pyGet v "syllables")
      let sylls_sorted ← sort_sylls sylls
      let wt ← pyGetD w "text" (Val.str "")
      pure ⟨wnum, vnum, wt, sylls_sorted⟩
    else do
      let t ← pyGetD w "text" (Val.str "[word]")
      pure ⟨wnum, vnum, Val.str (pyStr t ++ "[missing variant #" ++ toString vnum ++ "]"), []⟩
  else
    pure ⟨wnum, vnum, Val.str ("[missing word #" ++ toString wnum ++ "]"), []⟩

/-- `reconstruct_units(data, mask)` of `visualizer.py`:
returns `(units, ictus_positions, accent_positions, mask_ls, mask_du)`. -/
def reconstruct_units (data mask : Val) :
    Option (List RUnit × List Int × List Int × String × String) := do
  let words ← asSeq (← pyGet data "words")
  let words_by ← idx_by_num words "word_number"
  let seq ← asSeq (← pyGet mask "word-variant")
  let units ← seq.mapM (buildUnit words_by)
  let ictItems ← asIter (← pyGet mask "icted_syllables")
  let ict := (ictItems.filter isNum).map numToInt
  let accItems ← asIter (← pyGet mask "accented_syllables")
  let acc := (accItems.filter isNum).map numToInt
  let maskLsV ← pyGetD mask "prosodic_mask" (Val.str "")
  let mask_ls := pyStr maskLsV
  pure (units, ict, acc, mask_ls, mask_to_dash_u mask_ls)

/-- One render element of `render_units`: a word gap, a placeholder column
for a unit without syllables, or a syllable column
(mark character, CSS class list, title, text). -/
inductive Part where
  | gap
  | placeholder (word_number variant_number : Int) (word_text : Val)
  | syl (mark : String) (classes : List String) (title : String) (text : Val)

/-- The mark above a syllable:
`"-" if (is_long and not is_elide) else ("u" if (not is_long and not is_elide) else "&nbsp;")`. -/
def sylMarkChar (is_long is_elide : Bool) : String :=
  if is_long && !is_elide then "-"
  else if !is_long && !is_elide then "u"
  else "&nbsp;"

/-- The CSS class list of a syllable chip, as built by `render_units`:
`["syl"]`, then `both`+`accent` / `accent` / `icted` for a counted syllable,
or `elide` for an elided one. -/
def sylClasses (is_elide is_accent is_ictus : Bool) : List String :=
  ["syl"] ++
    (if !is_elide then
      (if is_accent && is_ictus then ["both", "accent"]
       else if is_accent then ["accent"]
       else if is_ictus then ["icted"]
       else [])
     else ["elide"])

/-- The title fragments of a syllable chip, as built by `render_units`. -/
def sylTitleBits (is_elide is_long is_accent is_ictus : Bool) : List String :=
  if !is_elide then
    [if is_long then "long" else "short"] ++
      (if is_accent && is_ictus then ["accent", "ictus"]
       else if is_accent then ["accent"]
       else if is_ictus then ["ictus"]
       else [])
  else ["elision"]

/-- The per-syllable body of the `render_units` loop, at the (already
incremented) 1-based running position `global_idx`. -/
def renderSyl (global_idx : Int) (syl : Val) (ict acc : List Int) : Option Part := do
  let is_elide := pyTruthy (← pyGet syl "elision")
  let is_long := pyTruthy (← pyGet syl "length")
  let is_accent := decide (global_idx ∈ acc)
  let is_ictus := decide (global_idx ∈ ict)
  let bits := sylTitleBits is_elide is_long is_accent is_ictus
  let joined := String.intercalate ", " bits
  let title := if joined = "" then "syllable" else joined
  let text ← pyGetD syl "text" (Val.str "")
  pure (Part.syl (sylMarkChar is_long is_elide) (sylClasses is_elide is_accent is_ictus) title text)

/-- The inner `for syl in unit["syllables"]` loop: threads `global_idx`,
incrementing it for every syllable (elided or not). -/
def renderSyls : Int → List Val → List Int → List Int → Option (List Part × Int)
  | g, [], _, _ => some ([], g)
  | g, s :: rest, ict, acc => do
    let p ← renderSyl (g + 1) s ict acc
    let (ps, g') ← renderSyls (g + 1) rest ict acc
    pure (p :: ps, g')

/-- The outer `for ui, unit in enumerate(units)` loop of `render_units`:
a word gap before every unit but the first, a placeholder for a unit with no
syllables, the syllable columns otherwise. -/
def renderUnitsGo : Int → Bool → List RUnit → List Int → List Int → Option (List Part)
  | _, _, [], _, _ => some []
  | g, first, u :: rest, ict, acc =>
    let gap : List Part := if first then [] else [Part.gap]
    if u.syllables.isEmpty then
      (renderUnitsGo g false rest ict acc).map
        (fun ps => gap ++ [Part.placeholder u.word_number u.variant_number u.word_text] ++ ps)
    else do
      let (ps, g') ← renderSyls g u.syllables ict acc
      let tail ← renderUnitsGo g' false rest ict acc
      pure (gap ++ ps ++ tail)

/-- The render elements `render_units` produces, in order
(`global_idx` starts at 0). -/
def renderParts (units : List RUnit) (ict acc : List Int) : Option (List Part) :=
  renderUnitsGo 0 true units ict acc

/-- The HTML string appended to `parts` for one render element. -/
def partToHtml : Part → String
  | .gap => "<span class=\"word-gap\"></span>"
  | .placeholder wn vn wt =>
      "<div class=\"syl-col\"><div class=\"syl-mark\">&nbsp;</div>" ++
      "<span class=\"syl\" title=\"No syllables for word #" ++ toString wn ++
      ", variant #" ++ toString vn ++ "\">" ++ html_escape wt ++ "</span></div>"
  | .syl mark classes title text =>
      "<div class=\"syl-col\">" ++
      "  <div class=\"syl-mark\">" ++ mark ++ "</div>" ++
      "  <span class=\"" ++ String.intercalate " " classes ++ "\" title=\"" ++
      html_escape_str title ++ "\">" ++ html_escape text ++ "</span>" ++
      "</div>"

/-- `render_units(units, ictus_positions, accent_positions)`: the full HTML
string. -/
def render_units (units : List RUnit) (ict acc : List Int) : Option String :=
  (renderParts units ict acc).map
    (fun ps => "<div class=\"ap-verse\">" ++ String.join (ps.map partToHtml) ++ "</div>")

/-- The composition the app runs for a selected verse and mask:
`render_units(*reconstruct_units(data, mask)[:3])`. -/
def visualize (data mask : Val) : Option String := do
  let (units, ict, acc, _, _) ← reconstruct_units data mask
  render_units units ict acc

/-- The render elements of the composition, before HTML formatting. -/
def visualizeParts (data mask : Val) : Option (List Part) := do
  let (units, ict, acc, _, _) ← reconstruct_units data mask
  renderParts units ict acc

/-! ## Observation functions used to state properties -/

/-- The CSS class list of a render element (empty for non-syllables). -/
def partClasses : Part → List String
  | .syl _ cs _ _ => cs
  | _ => []

/-- Keep a render element only when it is a syllable column. -/
def sylPartOnly : Part → Option Part
  | .syl m cs t x => some (.syl m cs t x)
  | _ => Option.none

/-- The flattened syllable sequence of the resolved units, in unit order and
syllable order within each unit. -/
def allSyls (units : List RUnit) : List Val :=
  (units.map RUnit.syllables).flatten

/-- The numeric key under which `idx_by_num` files an entry, when it files
one at all. -/
def keyNum (it : Val) (key : String) : Option Int :=
  match pyGet it key with
  | some n => if isNum n then some (numToInt n) else Option.none
  | _ => Option.none

/-- The per-character conversion claimed for `mask_to_dash_u`
(`l`/`L` to `-`, `s`/`S` to `u`, anything else unchanged). -/
def lsChar (ch : Char) : Char :=
  if ch = 'l' ∨ ch = 'L' then '-' else if ch = 's' ∨ ch = 'S' then 'u' else ch

/-! ## The exact success predicate of the transform (claim C3) -/

/-- Whether processing one word-variant pair completes without raising,
mirroring the pair loop of `reconstruct_units` step for step: both fields
must survive `int(...)`; then, only if the word number resolves, the
resolved word\x27s `variants` must iterate to dict entries; and only if the
variant number also resolves, the selected variant\x27s `syllables` must
iterate to entries whose `syllable_number` sort key converts. A pair whose
word or variant does not resolve imposes nothing further (the placeholder
paths cannot raise), and words never referenced by any pair are never
examined. -/
def pairRunOK (wb : List (Int × Val)) (pair : Val) : Bool :=
  match (pyGet pair "word").bind pyToInt with
  | Option.none => false
  | some wnum =>
    match (pyGet pair "variant").bind pyToInt with
    | Option.none => false
    | some _vnum =>
      let w := (assocFind wb wnum).getD Val.none
      if pyTruthy w then
        match (pyGet w "variants").bind asSeq with
        | Option.none => false
        | some vitems =>
          match idx_by_num vitems "variant_number" with
          | Option.none => false
          | some vtbl =>
            let v := (assocFind vtbl _vnum).getD Val.none
            if pyTruthy v then
              match (pyGet v "syllables").bind asSeq with
              | Option.none => false
              | some sitems => sitems.all (fun t => (sylKey t).isSome)
            else true
      else true

/-- Whether the whole transform completes without raising: the verse\x27s
`words` iterates to dict entries, every word-variant pair passes
`pairRunOK` against the word table, and the two index-set values are
iterable (a list, string or dict) or falsy. Nothing else is constrained —
in particular malformed entries inside unreferenced words or unselected
variants are never touched. -/
def runOK (data mask : Val) : Bool :=
  match (pyGet data "words").bind asSeq with
  | Option.none => false
  | some words =>
    match idx_by_num words "word_number" with
    | Option.none => false
    | some wb =>
      match (pyGet mask "word-variant").bind asSeq with
      | Option.none => false
      | some seq =>
        seq.all (pairRunOK wb) &&
        ((pyGet mask "icted_syllables").bind asIter).isSome &&
        ((pyGet mask "accented_syllables").bind asIter).isSome

/-! ## Concrete inputs used by counterexamples and witnesses -/

/-- A unit with an elided first syllable and a plain second syllable. -/
def exUnit : RUnit :=
  ⟨1, 1, Val.str "arma",
    [Val.dict [("elision", Val.bool true), ("text", Val.str "ar")],
     Val.dict [("length", Val.bool true), ("text", Val.str "ma")]]⟩

/-- The render elements for `exUnit` with accent set `[1]`. -/
def exParts : List Part :=
  [Part.syl "&nbsp;" ["syl", "elide"] "elision" (Val.str "ar"),
   Part.syl "-" ["syl"] "long" (Val.str "ma")]

/-- A one-word verse whose only syllable is flagged elidable. -/
def hiData : Val :=
  Val.dict [("words", Val.list [Val.dict [("word_number", Val.int 1),
    ("text", Val.str "arma"),
    ("variants", Val.list [Val.dict [("variant_number", Val.int 1),
      ("syllables", Val.list [Val.dict [("syllable_number", Val.int 1),
        ("text", Val.str "ar"), ("elision", Val.bool true),
        ("length", Val.bool true)]])]])]])]

/-- A mask for `hiData` whose `hiatus_after` set contains the candidate
index 1 of the elidable syllable. -/
def hiMask : Val :=
  Val.dict [("word-variant", Val.list [Val.dict [("word", Val.int 1),
      ("variant", Val.int 1)]]),
    ("hiatus_after", Val.list [Val.int 1]),
    ("icted_syllables", Val.list []), ("accented_syllables", Val.list [])]

/-- A one-word verse with a single plain long syllable. -/
def fbData : Val :=
  Val.dict [("words", Val.list [Val.dict [("word_number", Val.int 1),
    ("text", Val.str "arma"),
    ("variants", Val.list [Val.dict [("variant_number", Val.int 1),
      ("syllables", Val.list [Val.dict [("syllable_number", Val.int 1),
        ("text", Val.str "ar"), ("length", Val.bool true)]])]])]])]

/-- A mask for `fbData`, parametrised by its `foot_boundary_after` value. -/
def fbMask (fba : Val) : Val :=
  Val.dict [("foot_boundary_after", fba),
    ("word-variant", Val.list [Val.dict [("word", Val.int 1),
      ("variant", Val.int 1)]]),
    ("icted_syllables", Val.list []), ("accented_syllables", Val.list [])]

/-- Items for the C9 witness: two entries sharing key 2 around one with no
key field. -/
def exItems : List Val :=
  [Val.dict [("variant_number", Val.int 2), ("text", Val.str "first")],
   Val.dict [("text", Val.str "nokey")],
   Val.dict [("variant_number", Val.int 2), ("text", Val.str "second")]]

/-! ## General helper lemmas -/

theorem data_foldl_append (l : List String) (acc : String) :
    (List.foldl (· ++ ·) acc l).data = acc.data ++ (l.map String.data).flatten := by
  induction l generalizing acc with
  | nil => simp
  | cons x xs ih => simp [List.foldl, ih, String.data_append, List.append_assoc]

theorem data_join (l : List String) : (String.join l).data = (l.map String.data).flatten := by
  simp [String.join, data_foldl_append l ""]

theorem join_singletons {α β : Type} (g : α → β) :
    ∀ l : List α, (l.map (fun x => [g x])).flatten = l.map g
  | [] => rfl
  | x :: xs => by simp [join_singletons g xs]

/-! ## Lookup-table lemmas (claim C9) -/

theorem assocFind_assocSet_self (t : List (Int × Val)) (k : Int) (v : Val) :
    assocFind (assocSet t k v) k = some v := by
  induction t with
  | nil => simp [assocSet, assocFind]
  | cons p rest ih =>
    obtain ⟨k', v'⟩ := p
    by_cases h : k' = k <;> simp [assocSet, assocFind, h, ih]

theorem assocFind_assocSet_ne (t : List (Int × Val)) (k : Int) (v : Val) (n : Int)
    (h : n ≠ k) : assocFind (assocSet t k v) n = assocFind t n := by
  induction t with
  | nil => simp [assocSet, assocFind, h.symm]
  | cons p rest ih =>
    obtain ⟨k', v'⟩ := p
    by_cases hk : k' = k
    · subst hk
      simp [assocSet, assocFind, h.symm]
    · simp [assocSet, assocFind, hk, ih]

theorem mem_assocSet {t : List (Int × Val)} {k : Int} {v : Val} {p : Int × Val}
    (h : p ∈ assocSet t k v) : p = (k, v) ∨ p ∈ t := by
  induction t with
  | nil => simpa [assocSet] using h
  | cons q rest ih =>
    obtain ⟨k', v'⟩ := q
    by_cases hk : k' = k
    · subst hk
      simp [assocSet] at h
      rcases h with h | h
      · exact Or.inl (by simp [h])
      · exact Or.inr (by simp [h])
    · simp [assocSet, hk] at h
      rcases h with h | h
      · exact Or.inr (by simp [h])
      · rcases ih h with h' | h'
        · exact Or.inl h'
        · exact Or.inr (by simp [h'])

theorem idx_by_num_go_find (key : String) :
    ∀ (items : List Val) (acc tbl : List (Int × Val)),
      idx_by_num_go key acc items = some tbl →
      ∀ n : Int, assocFind tbl n =
        ((items.reverse.find? (fun it => keyNum it key == some n)).or (assocFind acc n)) := by
  intro items
  induction items with
  | nil =>
    intro acc tbl h n
    simp [idx_by_num_go] at h
    subst h
    simp
  | cons it rest ih =>
    intro acc tbl h n
    rw [idx_by_num_go] at h
    cases hg : pyGet it key with
    | none =>
      rw [hg] at h
      simp only [Option.bind_eq_bind, Option.none_bind] at h
      exact absurd h (by simp)
    | some nv =>
      rw [hg] at h
      simp only [Option.bind_eq_bind, Option.some_bind] at h
      have step := ih _ tbl h n
      rw [step]
      rw [List.reverse_cons, List.find?_append, Option.or_assoc]
      congr 1
      by_cases hnum : isNum nv = true
      · by_cases heq : numToInt nv = n
        · have hkey : keyNum it key = some n := by
            simp [keyNum, hg, hnum, heq]
          simp [List.find?, hkey, hnum, heq, assocFind_assocSet_self]
        · have hkey : keyNum it key = some (numToInt nv) := by
            simp [keyNum, hg, hnum]
          have hne : (keyNum it key == some n) = false := by
            simp [hkey, heq]
          simp [List.find?, hne, hnum, assocFind_assocSet_ne _ _ _ _ (Ne.symm heq)]
      · have hkey : keyNum it key = Option.none := by
          simp [keyNum, hg, hnum]
        simp [List.find?, hkey, hnum]

theorem idx_by_num_go_mem (key : String) :
    ∀ (items : List Val) (acc tbl : List (Int × Val)),
      idx_by_num_go key acc items = some tbl →
      ∀ p ∈ tbl, p ∈ acc ∨ (p.2 ∈ items ∧ keyNum p.2 key = some p.1) := by
  intro items
  induction items with
  | nil =>
    intro acc tbl h p hp
    simp [idx_by_num_go] at h
    subst h
    exact Or.inl hp
  | cons it rest ih =>
    intro acc tbl h p hp
    rw [idx_by_num_go] at h
    cases hg : pyGet it key with
    | none =>
      rw [hg] at h
      simp only [Option.bind_eq_bind, Option.none_bind] at h
      exact absurd h (by simp)
    | some nv =>
      rw [hg] at h
      simp only [Option.bind_eq_bind, Option.some_bind] at h
      rcases ih _ tbl h p hp with h' | h'
      · by_cases hnum : isNum nv = true
        · rw [if_pos hnum] at h'
          rcases mem_assocSet h' with h2 | h2
          · subst h2
            exact Or.inr ⟨by simp, by simp [keyNum, hg, hnum]⟩
          · exact Or.inl h2
        · rw [if_neg hnum] at h'
          exact Or.inl h'
      · exact Or.inr ⟨by simp [h'.1], h'.2⟩


/-! ## Render-sequence lemmas (claim C1) -/

theorem renderSyl_isSylPart (g : Int) (syl : Val) (ict acc : List Int) (p : Part)
    (h : renderSyl g syl ict acc = some p) : sylPartOnly p = some p := by
  cases syl <;> simp [renderSyl, pyGet, pyGetD] at h
  subst h
  simp [sylPartOnly]

theorem renderSyls_spec (ict acc : List Int) :
    ∀ (syls : List Val) (g : Int) (ps : List Part) (gOut : Int),
      renderSyls g syls ict acc = some (ps, gOut) →
      gOut = g + syls.length ∧
      (List.filterMap sylPartOnly ps = ps) ∧
      ∀ i : Nat, ps[i]? = (syls[i]?).bind (fun s => renderSyl (g + (i : Int) + 1) s ict acc) := by
  intro syls
  induction syls with
  | nil =>
    intro g ps gOut h
    simp [renderSyls] at h
    obtain ⟨h1, h2⟩ := h
    subst h1; subst h2
    simp
  | cons s rest ih =>
    intro g ps gOut h
    rw [renderSyls] at h
    cases hp : renderSyl (g + 1) s ict acc with
    | none =>
      rw [hp] at h
      simp only [Option.bind_eq_bind, Option.none_bind] at h
      exact absurd h (by simp)
    | some p =>
      rw [hp] at h
      simp only [Option.bind_eq_bind, Option.some_bind] at h
      cases hr : renderSyls (g + 1) rest ict acc with
      | none =>
        rw [hr] at h
        simp only [Option.bind_eq_bind, Option.none_bind] at h
        exact absurd h (by simp)
      | some pr =>
        obtain ⟨ps', g'⟩ := pr
        rw [hr] at h
        simp only [Option.bind_eq_bind, Option.some_bind] at h
        simp only [Option.pure_def, Option.some_inj, Prod.mk.injEq] at h
        obtain ⟨hps, hg⟩ := h
        have hmain := ih (g + 1) ps' g' hr
        constructor
        · rw [← hg, hmain.1]
          simp [List.length_cons]
          omega
        constructor
        · rw [← hps]
          simp [List.filterMap_cons, renderSyl_isSylPart (g + 1) s ict acc p hp, hmain.2.1]
        · intro i
          rw [← hps]
          cases i with
          | zero => simpa using hp.symm
          | succ j =>
            have := hmain.2.2 j
            simp only [List.getElem?_cons_succ]
            rw [this]
            have harith : g + 1 + (j : Int) + 1 = g + ((j : Int) + 1) + 1 := by omega
            simp [harith]

theorem renderSyls_append (ict acc : List Int) :
    ∀ (xs ys : List Val) (g : Int),
      renderSyls g (xs ++ ys) ict acc = (do
        let (ps, g1) ← renderSyls g xs ict acc
        let (qs, g2) ← renderSyls g1 ys ict acc
        pure (ps ++ qs, g2)) := by
  intro xs
  induction xs with
  | nil =>
    intro ys g
    simp only [List.nil_append, renderSyls, Option.bind_eq_bind, Option.some_bind]
    cases hr : renderSyls g ys ict acc with
    | none => rfl
    | some pr => rfl
  | cons x rest ih =>
    intro ys g
    simp only [List.cons_append, renderSyls, List.append_eq]
    cases hp : renderSyl (g + 1) x ict acc with
    | none => simp
    | some p =>
      simp only [Option.bind_eq_bind, Option.some_bind]
      rw [ih ys (g + 1)]
      cases hr : renderSyls (g + 1) rest ict acc with
      | none => simp
      | some pr =>
        obtain ⟨ps', g'⟩ := pr
        simp only [Option.bind_eq_bind, Option.some_bind]
        cases hq : renderSyls g' ys ict acc with
        | none => simp [hq]
        | some qr =>
          obtain ⟨qs, g2⟩ := qr
          simp [hq]

theorem renderUnitsGo_filter (ict acc : List Int) :
    ∀ (units : List RUnit) (g : Int) (first : Bool) (ps : List Part),
      renderUnitsGo g first units ict acc = some ps →
      ∃ gOut, renderSyls g (allSyls units) ict acc = some (List.filterMap sylPartOnly ps, gOut) := by
  intro units
  induction units with
  | nil =>
    intro g first ps h
    simp [renderUnitsGo] at h
    subst h
    exact ⟨g, by simp [allSyls, renderSyls]⟩
  | cons u rest ih =>
    intro g first ps h
    rw [renderUnitsGo] at h
    by_cases hn : u.syllables.isEmpty
    · rw [if_pos hn] at h
      cases hrec : renderUnitsGo g false rest ict acc with
      | none => rw [hrec] at h; exact absurd h (by simp)
      | some ps' =>
        rw [hrec] at h
        simp only [Option.map_some', Option.some_inj] at h
        obtain ⟨gOut, hg⟩ := ih g false ps' hrec
        refine ⟨gOut, ?_⟩
        have hu : u.syllables = [] := by simpa [List.isEmpty_iff] using hn
        have hall : allSyls (u :: rest) = allSyls rest := by
          simp [allSyls, hu]
        rw [hall, ← h]
        have hfil : List.filterMap sylPartOnly
            ((if first then ([] : List Part) else [Part.gap]) ++
              [Part.placeholder u.word_number u.variant_number u.word_text] ++ ps') =
            List.filterMap sylPartOnly ps' := by
          cases first <;> simp [sylPartOnly]
        rw [hfil]
        exact hg
    · rw [if_neg hn] at h
      cases hs : renderSyls g u.syllables ict acc with
      | none =>
        rw [hs] at h
        simp only [Option.bind_eq_bind, Option.none_bind] at h
        exact absurd h (by simp)
      | some pr =>
        obtain ⟨psu, g1⟩ := pr
        rw [hs] at h
        simp only [Option.bind_eq_bind, Option.some_bind] at h
        cases hrec : renderUnitsGo g1 false rest ict acc with
        | none =>
          rw [hrec] at h
          simp only [Option.bind_eq_bind, Option.none_bind] at h
          exact absurd h (by simp)
        | some tl =>
          rw [hrec] at h
          simp only [Option.bind_eq_bind, Option.some_bind, Option.pure_def,
            Option.some_inj] at h
          obtain ⟨gOut, htl⟩ := ih g1 false tl hrec
          refine ⟨gOut, ?_⟩
          have hall : allSyls (u :: rest) = u.syllables ++ allSyls rest := by
            simp [allSyls]
          have happ : renderSyls g (u.syllables ++ allSyls rest) ict acc =
              some (psu ++ List.filterMap sylPartOnly tl, gOut) := by
            rw [renderSyls_append ict acc u.syllables (allSyls rest) g, hs]
            simp only [Option.bind_eq_bind, Option.some_bind]
            rw [htl]
            simp
          have hsylsOnly := (renderSyls_spec ict acc u.syllables g psu g1 hs).2.1
          have hfil : List.filterMap sylPartOnly
              ((if first = true then ([] : List Part) else [Part.gap]) ++ psu ++ tl) =
              psu ++ List.filterMap sylPartOnly tl := by
            cases first <;> simp [sylPartOnly, List.filterMap_append, hsylsOnly]
          rw [hall, happ, ← h, hfil]



/-! ## Stability of the sort (claim C10) -/

theorem filter_orderedInsert (k : Int) (p : Int × Val) :
    ∀ l : List (Int × Val),
      (List.orderedInsert (fun p q : Int × Val => p.1 ≤ q.1) p l).filter
          (fun q => q.1 == k) =
        (if p.1 = k then p :: l.filter (fun q => q.1 == k)
         else l.filter (fun q => q.1 == k)) := by
  intro l
  induction l with
  | nil =>
    by_cases hp : p.1 = k
    · simp [List.orderedInsert, List.filter, hp]
    · have hbf : (p.1 == k) = false := beq_eq_false_iff_ne.mpr hp
      simp [List.orderedInsert, List.filter, hp, hbf]
  | cons b l ih =>
    by_cases hle : p.1 ≤ b.1
    · rw [List.orderedInsert_of_le (fun p q : Int × Val => p.1 ≤ q.1) l hle]
      by_cases hp : p.1 = k <;> simp [List.filter_cons, hp]
    · rw [List.orderedInsert, if_neg hle]
      have hblt : b.1 < p.1 := lt_of_not_le hle
      by_cases hp : p.1 = k
      · have hb : (b.1 == k) = false := by
          subst hp
          simp [Int.ne_of_lt hblt]
        simp [List.filter_cons, hb, ih, hp]
      · by_cases hb : b.1 = k <;> simp [List.filter_cons, hb, ih, hp]

theorem filter_insertionSort (k : Int) :
    ∀ l : List (Int × Val),
      (List.insertionSort (fun p q : Int × Val => p.1 ≤ q.1) l).filter
          (fun q => q.1 == k) = l.filter (fun q => q.1 == k) := by
  intro l
  induction l with
  | nil => rfl
  | cons a l ih =>
    rw [List.insertionSort, filter_orderedInsert]
    by_cases hp : a.1 = k <;> simp [List.filter_cons, hp, ih]

/-! ## Theorems on the claims -/



/-! ## The mask is read only at four keys (claims C2, C5) -/

theorem reconstruct_units_consKey (k : String) (h1 : k ≠ "word-variant")
    (h2 : k ≠ "icted_syllables") (h3 : k ≠ "accented_syllables")
    (h4 : k ≠ "prosodic_mask") (data v : Val) (kvs : List (String × Val)) :
    reconstruct_units data (Val.dict ((k, v) :: kvs)) =
      reconstruct_units data (Val.dict kvs) := by
  simp [reconstruct_units, pyGet, pyGetD, dictFind, h1, h2, h3, h4]

theorem visualize_consKey (k : String) (h1 : k ≠ "word-variant")
    (h2 : k ≠ "icted_syllables") (h3 : k ≠ "accented_syllables")
    (h4 : k ≠ "prosodic_mask") (data v : Val) (kvs : List (String × Val)) :
    visualize data (Val.dict ((k, v) :: kvs)) = visualize data (Val.dict kvs) := by
  simp [visualize, reconstruct_units_consKey k h1 h2 h3 h4 data v kvs]


/-! ## mapM over a split list (claim C6) -/

theorem mapM_append_option {α β : Type} (f : α → Option β) (x : α) (y : β)
    (hx : f x = some y) :
    ∀ (pre post : List α),
      (pre ++ x :: post).mapM f =
        (pre.mapM f).bind (fun us => (post.mapM f).map (fun vs => us ++ y :: vs)) := by
  intro pre
  induction pre with
  | nil =>
    intro post
    simp only [List.nil_append, List.mapM_cons, List.mapM_nil, hx]
    cases hp : post.mapM f with
    | none => simp
    | some vs => simp
  | cons q pre ih =>
    intro post
    simp only [List.cons_append, List.mapM_cons, ih post]
    cases hq : f q with
    | none => simp
    | some u0 =>
      simp only [Option.bind_eq_bind, Option.some_bind]
      cases hpre : pre.mapM f with
      | none => simp
      | some us =>
        simp only [Option.bind_eq_bind, Option.some_bind]
        cases hpost : post.mapM f with
        | none => simp
        | some vs => simp


/-! ## The exact raise/no-raise boundary (claim C3) -/

theorem pyGet_isSome_isDict (v : Val) (k : String)
    (h : (pyGet v k).isSome = true) : isDict v = true := by
  cases v <;> simp [pyGet, isDict] at h ⊢

theorem mapM_isSome_all {α β : Type} (f : α → Option β) :
    ∀ l : List α, (l.mapM f).isSome = l.all (fun x => (f x).isSome) := by
  intro l
  induction l with
  | nil => rfl
  | cons x rest ih =>
    rw [List.mapM_cons, List.all_cons, ← ih]
    cases hx : f x with
    | none => simp
    | some y =>
      simp only [Option.bind_eq_bind, Option.some_bind, Option.isSome_some,
        Bool.true_and]
      cases hr : rest.mapM f with
      | none => simp [hr]
      | some ys => simp [hr]

theorem mapM_mem {α β : Type} (f : α → Option β) :
    ∀ (l : List α) (ys : List β), l.mapM f = some ys →
      ∀ y ∈ ys, ∃ x ∈ l, f x = some y := by
  intro l
  induction l with
  | nil =>
    intro ys h y hy
    simp only [List.mapM_nil, Option.pure_def, Option.some_inj] at h
    subst h
    simp at hy
  | cons x rest ih =>
    intro ys h y hy
    rw [List.mapM_cons] at h
    cases hx : f x with
    | none =>
      rw [hx] at h
      simp only [Option.bind_eq_bind, Option.none_bind] at h
      exact absurd h (by simp)
    | some y0 =>
      rw [hx] at h
      simp only [Option.bind_eq_bind, Option.some_bind] at h
      cases hr : rest.mapM f with
      | none =>
        rw [hr] at h
        simp only [Option.bind_eq_bind, Option.none_bind] at h
        exact absurd h (by simp)
      | some ys' =>
        rw [hr] at h
        simp only [Option.bind_eq_bind, Option.some_bind, Option.pure_def,
          Option.some_inj] at h
        subst h
        rcases List.mem_cons.mp hy with h | h
        · exact ⟨x, by simp, by rw [hx, h]⟩
        · obtain ⟨z, hz, hfz⟩ := ih ys' hr y h
          exact ⟨z, by simp [hz], hfz⟩

theorem sylKey_isSome_isDict (v : Val) (h : (sylKey v).isSome = true) :
    isDict v = true := by
  cases v <;> simp [sylKey, pyGetD] at h <;> rfl

theorem mapM_keyed (sylls : List Val) (keyed : List (Int × Val))
    (h : sylls.mapM (fun s => (sylKey s).map (fun k => (k, s))) = some keyed) :
    keyed.map Prod.snd = sylls ∧ ∀ p ∈ keyed, sylKey p.2 = some p.1 := by
  induction sylls generalizing keyed with
  | nil =>
    simp only [List.mapM_nil, Option.pure_def, Option.some_inj] at h
    subst h
    simp
  | cons x rest ih =>
    rw [List.mapM_cons] at h
    cases hk : sylKey x with
    | none => rw [hk] at h; simp at h
    | some k =>
      rw [hk] at h
      simp only [Option.map_some', Option.bind_eq_bind, Option.some_bind] at h
      cases hr : rest.mapM (fun s => (sylKey s).map (fun k => (k, s))) with
      | none => rw [hr] at h; simp at h
      | some krest =>
        rw [hr] at h
        simp only [Option.bind_eq_bind, Option.some_bind, Option.pure_def,
          Option.some_inj] at h
        subst h
        obtain ⟨h1, h2⟩ := ih krest hr
        constructor
        · simp [h1]
        · intro p hp
          rcases List.mem_cons.mp hp with h | h
          · subst h; exact hk
          · exact h2 p h

theorem idx_by_num_go_isSome_eq (key : String) :
    ∀ (items : List Val) (acc : List (Int × Val)),
      (idx_by_num_go key acc items).isSome = items.all isDict := by
  intro items
  induction items with
  | nil => intro acc; simp [idx_by_num_go]
  | cons it rest ih =>
    intro acc
    rw [idx_by_num_go, List.all_cons]
    cases it <;>
      simp [pyGet, isDict, Option.bind_eq_bind, ih]

theorem sort_sylls_isSome_eq (sylls : List Val) :
    (sort_sylls sylls).isSome = sylls.all (fun s => (sylKey s).isSome) := by
  have h := mapM_isSome_all (fun s => (sylKey s).map (fun k => (k, s))) sylls
  simp only [Option.isSome_map'] at h
  rw [sort_sylls]
  cases hk : sylls.mapM (fun s => (sylKey s).map (fun k => (k, s))) with
  | none =>
    rw [hk] at h
    simp only [Option.isSome_none] at h
    simp [← h]
  | some keyed =>
    rw [hk] at h
    simp only [Option.isSome_some] at h
    simp [← h]

theorem sort_sylls_out_dict (sylls out : List Val) (h : sort_sylls sylls = some out) :
    ∀ t ∈ out, isDict t = true := by
  rw [sort_sylls] at h
  cases hk : sylls.mapM (fun s => (sylKey s).map (fun k => (k, s))) with
  | none => rw [hk] at h; simp at h
  | some keyed =>
    rw [hk] at h
    simp only [Option.bind_eq_bind, Option.some_bind, Option.pure_def,
      Option.some_inj] at h
    obtain ⟨_, hkeys⟩ := mapM_keyed sylls keyed hk
    subst h
    intro t ht
    simp only [List.mem_map] at ht
    obtain ⟨p, hp, hps⟩ := ht
    have hpk := hkeys p
      ((List.mem_insertionSort (fun p q : Int × Val => p.1 ≤ q.1)).mp hp)
    subst hps
    exact sylKey_isSome_isDict p.2 (by simp [hpk])

theorem buildUnit_isSome_eq (wb : List (Int × Val)) (pair : Val) :
    (buildUnit wb pair).isSome = pairRunOK wb pair := by
  rw [buildUnit, pairRunOK]
  cases hg1 : pyGet pair "word" with
  | none => simp
  | some w0 =>
  simp only [Option.bind_eq_bind, Option.some_bind]
  cases hi1 : pyToInt w0 with
  | none => simp
  | some wnum =>
  simp only [Option.some_bind]
  cases hg2 : pyGet pair "variant" with
  | none => simp
  | some v0 =>
  simp only [Option.some_bind]
  cases hi2 : pyToInt v0 with
  | none => simp
  | some vnum =>
  simp only [Option.some_bind]
  by_cases htw : pyTruthy ((assocFind wb wnum).getD Val.none) = true
  · simp only [htw, if_true]
    cases hW : (assocFind wb wnum).getD Val.none with
    | dict wkvs =>
      simp only [pyGet, Option.some_bind]
      cases hs : asSeq ((dictFind wkvs "variants").getD Val.none) with
      | none => simp
      | some vitems =>
      simp only [Option.some_bind]
      cases hvb : idx_by_num vitems "variant_number" with
      | none => simp
      | some vtbl =>
      simp only [Option.some_bind]
      by_cases htv : pyTruthy ((assocFind vtbl vnum).getD Val.none) = true
      · simp only [htv, if_true]
        cases hV : (assocFind vtbl vnum).getD Val.none with
        | dict vkvs =>
          simp only [pyGet, Option.some_bind]
          cases hss : asSeq ((dictFind vkvs "syllables").getD Val.none) with
          | none => simp
          | some sitems =>
          simp only [Option.some_bind]
          cases hsort : sort_sylls sitems with
          | none =>
            have := sort_sylls_isSome_eq sitems
            rw [hsort] at this
            simp [← this]
          | some sorted =>
            have := sort_sylls_isSome_eq sitems
            rw [hsort] at this
            simp [pyGetD, ← this]
        | none => simp [pyGet]
        | bool b => simp [pyGet]
        | int n => simp [pyGet]
        | str t => simp [pyGet]
        | list xs => simp [pyGet]
      · simp only [htv, if_false, Bool.false_eq_true]
        cases hV : (assocFind vtbl vnum).getD Val.none <;>
          simp [pyGet, pyGetD, htv]
    | none => simp [pyGet]
    | bool b => simp [pyGet]
    | int n => simp [pyGet]
    | str t => simp [pyGet]
    | list xs => simp [pyGet]
  · simp [htw]

theorem buildUnit_syllables_dict (wb : List (Int × Val)) (pair : Val) (u : RUnit)
    (h : buildUnit wb pair = some u) : ∀ t ∈ u.syllables, isDict t = true := by
  rw [buildUnit] at h
  cases hg1 : pyGet pair "word" with
  | none =>
    rw [hg1] at h
    simp only [Option.bind_eq_bind, Option.none_bind] at h
    exact absurd h (by simp)
  | some w0 =>
  rw [hg1] at h
  simp only [Option.bind_eq_bind, Option.some_bind] at h
  cases hi1 : pyToInt w0 with
  | none =>
    rw [hi1] at h
    simp only [Option.none_bind] at h
    exact absurd h (by simp)
  | some wnum =>
  rw [hi1] at h
  simp only [Option.some_bind] at h
  cases hg2 : pyGet pair "variant" with
  | none =>
    rw [hg2] at h
    simp only [Option.none_bind] at h
    exact absurd h (by simp)
  | some v0 =>
  rw [hg2] at h
  simp only [Option.some_bind] at h
  cases hi2 : pyToInt v0 with
  | none =>
    rw [hi2] at h
    simp only [Option.none_bind] at h
    exact absurd h (by simp)
  | some vnum =>
  rw [hi2] at h
  simp only [Option.some_bind] at h
  by_cases htw : pyTruthy ((assocFind wb wnum).getD Val.none) = true
  · rw [if_pos htw] at h
    cases hv : pyGet ((assocFind wb wnum).getD Val.none) "variants" with
    | none =>
      rw [hv] at h
      simp only [Option.none_bind] at h
      exact absurd h (by simp)
    | some vr =>
    rw [hv] at h
    simp only [Option.some_bind] at h
    cases hs : asSeq vr with
    | none =>
      rw [hs] at h
      simp only [Option.none_bind] at h
      exact absurd h (by simp)
    | some vitems =>
    rw [hs] at h
    simp only [Option.some_bind] at h
    cases hvb : idx_by_num vitems "variant_number" with
    | none =>
      rw [hvb] at h
      simp only [Option.none_bind] at h
      exact absurd h (by simp)
    | some vtbl =>
    rw [hvb] at h
    simp only [Option.some_bind] at h
    by_cases htv : pyTruthy ((assocFind vtbl vnum).getD Val.none) = true
    · rw [if_pos htv] at h
      cases hsy : pyGet ((assocFind vtbl vnum).getD Val.none) "syllables" with
      | none =>
        rw [hsy] at h
        simp only [Option.none_bind] at h
        exact absurd h (by simp)
      | some sr =>
      rw [hsy] at h
      simp only [Option.some_bind] at h
      cases hss : asSeq sr with
      | none =>
        rw [hss] at h
        simp only [Option.none_bind] at h
        exact absurd h (by simp)
      | some sitems =>
      rw [hss] at h
      simp only [Option.some_bind] at h
      cases hsort : sort_sylls sitems with
      | none =>
        rw [hsort] at h
        simp only [Option.none_bind] at h
        exact absurd h (by simp)
      | some sorted =>
      rw [hsort] at h
      simp only [Option.some_bind] at h
      cases hwt : pyGetD ((assocFind wb wnum).getD Val.none) "text" (Val.str "") with
      | none =>
        rw [hwt] at h
        simp only [Option.none_bind] at h
        exact absurd h (by simp)
      | some wt =>
      rw [hwt] at h
      simp only [Option.some_bind, Option.pure_def, Option.some_inj] at h
      subst h
      exact sort_sylls_out_dict sitems sorted hsort
    · rw [if_neg htv] at h
      cases hwt : pyGetD ((assocFind wb wnum).getD Val.none) "text"
          (Val.str "[word]") with
      | none =>
        rw [hwt] at h
        simp only [Option.none_bind] at h
        exact absurd h (by simp)
      | some wt =>
      rw [hwt] at h
      simp only [Option.some_bind, Option.pure_def, Option.some_inj] at h
      subst h
      simp
  · rw [if_neg htw] at h
    simp only [Option.pure_def, Option.some_inj] at h
    subst h
    simp

theorem reconstruct_units_isSome_eq (data mask : Val) :
    (reconstruct_units data mask).isSome = runOK data mask := by
  rw [reconstruct_units, runOK]
  cases hw : pyGet data "words" with
  | none => simp
  | some wr =>
  simp only [Option.bind_eq_bind, Option.some_bind]
  cases hws : asSeq wr with
  | none => simp
  | some words =>
  simp only [Option.some_bind]
  cases hwb : idx_by_num words "word_number" with
  | none => simp
  | some wb =>
  simp only [Option.some_bind]
  cases hsq : pyGet mask "word-variant" with
  | none => simp
  | some sr =>
  simp only [Option.some_bind]
  cases hss : asSeq sr with
  | none => simp
  | some seq =>
  simp only [Option.some_bind]
  have hall : seq.all (pairRunOK wb) = (seq.mapM (buildUnit wb)).isSome := by
    rw [mapM_isSome_all]
    simp only [buildUnit_isSome_eq]
  cases hunits : seq.mapM (buildUnit wb) with
  | none =>
    rw [hunits] at hall
    simp only [Option.isSome_none] at hall
    simp [hall]
  | some units =>
  rw [hunits] at hall
  simp only [Option.isSome_some] at hall
  simp only [Option.some_bind, hall, Bool.true_and]
  cases hI : pyGet mask "icted_syllables" with
  | none => simp
  | some ir =>
  simp only [Option.some_bind]
  cases hIs : asIter ir with
  | none => simp
  | some ii =>
  simp only [Option.some_bind]
  cases hA : pyGet mask "accented_syllables" with
  | none => simp
  | some ar =>
  simp only [Option.some_bind]
  cases hAs : asIter ar with
  | none => simp
  | some ai =>
  simp only [Option.some_bind]
  cases hpm : pyGetD mask "prosodic_mask" (Val.str "") with
  | none =>
    exfalso
    have hd := pyGet_isSome_isDict mask "word-variant" (by simp [hsq])
    cases mask <;> simp [isDict] at hd <;> simp [pyGetD] at hpm
  | some pm => simp

theorem reconstruct_units_syllables_dict (data mask : Val) (units : List RUnit)
    (ict acc : List Int) (ls du : String)
    (h : reconstruct_units data mask = some (units, ict, acc, ls, du)) :
    ∀ u ∈ units, ∀ t ∈ u.syllables, isDict t = true := by
  rw [reconstruct_units] at h
  cases hw : pyGet data "words" with
  | none =>
    rw [hw] at h
    simp only [Option.bind_eq_bind, Option.none_bind] at h
    exact absurd h (by simp)
  | some wr =>
  rw [hw] at h
  simp only [Option.bind_eq_bind, Option.some_bind] at h
  cases hws : asSeq wr with
  | none =>
    rw [hws] at h
    simp only [Option.none_bind] at h
    exact absurd h (by simp)
  | some words =>
  rw [hws] at h
  simp only [Option.some_bind] at h
  cases hwb : idx_by_num words "word_number" with
  | none =>
    rw [hwb] at h
    simp only [Option.none_bind] at h
    exact absurd h (by simp)
  | some wb =>
  rw [hwb] at h
  simp only [Option.some_bind] at h
  cases hsq : pyGet mask "word-variant" with
  | none =>
    rw [hsq] at h
    simp only [Option.none_bind] at h
    exact absurd h (by simp)
  | some sr =>
  rw [hsq] at h
  simp only [Option.some_bind] at h
  cases hss : asSeq sr with
  | none =>
    rw [hss] at h
    simp only [Option.none_bind] at h
    exact absurd h (by simp)
  | some seq =>
  rw [hss] at h
  simp only [Option.some_bind] at h
  cases hunits : seq.mapM (buildUnit wb) with
  | none =>
    rw [hunits] at h
    simp only [Option.none_bind] at h
    exact absurd h (by simp)
  | some us =>
  rw [hunits] at h
  simp only [Option.some_bind] at h
  have hus : us = units := by
    cases hI : pyGet mask "icted_syllables" <;> rw [hI] at h <;>
      simp only [Option.bind_eq_bind, Option.none_bind, Option.some_bind] at h
    · exact absurd h (by simp)
    · cases hIs : asIter _ <;> rw [hIs] at h <;>
        simp only [Option.none_bind, Option.some_bind] at h
      · exact absurd h (by simp)
      · cases hA : pyGet mask "accented_syllables" <;> rw [hA] at h <;>
          simp only [Option.none_bind, Option.some_bind] at h
        · exact absurd h (by simp)
        · cases hAs : asIter _ <;> rw [hAs] at h <;>
            simp only [Option.none_bind, Option.some_bind] at h
          · exact absurd h (by simp)
          · cases hpm : pyGetD mask "prosodic_mask" (Val.str "") <;>
              rw [hpm] at h <;>
              simp only [Option.none_bind, Option.some_bind, Option.pure_def,
                Option.some_inj, Prod.mk.injEq] at h
            · exact absurd h (by simp)
            · exact h.1
  subst hus
  intro u hu
  obtain ⟨pr, _, hpr⟩ := mapM_mem (buildUnit wb) seq us hunits u hu
  exact buildUnit_syllables_dict wb pr u hpr

theorem renderSyl_some (g : Int) (v : Val) (ict acc : List Int)
    (h : isDict v = true) : (renderSyl g v ict acc).isSome = true := by
  cases v <;> simp [isDict] at h
  simp [renderSyl, pyGet, pyGetD]

theorem renderSyls_some (ict acc : List Int) :
    ∀ (syls : List Val) (g : Int), (∀ s ∈ syls, isDict s = true) →
      (renderSyls g syls ict acc).isSome = true := by
  intro syls
  induction syls with
  | nil => intro g _; simp [renderSyls]
  | cons x rest ih =>
    intro g hall
    rw [renderSyls]
    obtain ⟨p, hp⟩ := Option.isSome_iff_exists.mp
      (renderSyl_some (g + 1) x ict acc (hall x (by simp)))
    obtain ⟨pr, hpr⟩ := Option.isSome_iff_exists.mp
      (ih (g + 1) (fun z hz => hall z (by simp [hz])))
    obtain ⟨ps, g2⟩ := pr
    simp [hp, hpr]

theorem renderUnitsGo_some (ict acc : List Int) :
    ∀ (units : List RUnit) (g : Int) (first : Bool),
      (∀ u ∈ units, ∀ s ∈ u.syllables, isDict s = true) →
      (renderUnitsGo g first units ict acc).isSome = true := by
  intro units
  induction units with
  | nil => intro g first _; simp [renderUnitsGo]
  | cons u rest ih =>
    intro g first hall
    rw [renderUnitsGo]
    by_cases hn : u.syllables.isEmpty
    · rw [if_pos hn]
      obtain ⟨tl, htl⟩ := Option.isSome_iff_exists.mp
        (ih g false (fun z hz => hall z (by simp [hz])))
      simp [htl]
    · rw [if_neg hn]
      obtain ⟨pr, hpr⟩ := Option.isSome_iff_exists.mp
        (renderSyls_some ict acc u.syllables g (hall u (by simp)))
      obtain ⟨ps, g1⟩ := pr
      obtain ⟨tl, htl⟩ := Option.isSome_iff_exists.mp
        (ih g1 false (fun z hz => hall z (by simp [hz])))
      simp [hpr, htl]

/-- **C1 counterexample.** Two syllables, the first elided, accent set `[1]`.
The second syllable is the first non-elided one, so its effective index (as
the claim defines it) is 1, which is in the accent set; the claim therefore
requires its membership tests to succeed. The code instead tests the global
position 2 (it increments its counter for the elided syllable too), so the
rendered classes are bare `["syl"]`, with no accent. -/
theorem C1_counterexample :
    renderParts [exUnit] [] [1] = some exParts ∧
    partClasses (exParts.getD 1 Part.gap) = ["syl"] := ⟨rfl, rfl⟩

/-- **C1** (corrected). The index `render_units` uses for membership in
`icted_syllables`/`accented_syllables` is the global 1-based position over
ALL syllables of the resolved units, the elided ones included: the `i`-th
syllable (0-based) of the flattened sequence is always rendered at index
`i + 1`, so the indices assigned strictly increase by 1 over every syllable
in traversal order, starting at 1, with no gaps or repeats — but elided
syllables do advance the counter and consume an index. -/
theorem C1_theorem (units : List RUnit) (ict acc : List Int) (ps : List Part)
    (h : renderParts units ict acc = some ps) (i : Nat) :
    (List.filterMap sylPartOnly ps)[i]? =
      ((allSyls units)[i]?).bind (fun s => renderSyl ((i : Int) + 1) s ict acc) := by
  obtain ⟨gOut, hg⟩ := renderUnitsGo_filter ict acc units 0 true ps h
  have := (renderSyls_spec ict acc (allSyls units) 0
    (List.filterMap sylPartOnly ps) gOut hg).2.2 i
  simpa using this

/-- Witness for C1: the corrected statement applied to the concrete unit of
the counterexample, at flattened position 1. -/
theorem C1_witness :
    (List.filterMap sylPartOnly exParts)[1]? =
      ((allSyls [exUnit])[1]?).bind
        (fun s => renderSyl (((1 : Nat) : Int) + 1) s [] [1]) :=
  C1_theorem [exUnit] [] [1] exParts rfl 1

/-- **C9** (confirmed). `idx_by_num` files an entry only under a numeric
key field (entries whose key field is absent or not a number contribute
nothing), and a lookup resolves to the entry appearing last in input order
among those sharing the numeric key: `tbl.get(n)` equals the first match in
the reversed input among entries whose key field converts to `n`. -/
theorem C9_theorem (items : List Val) (key : String) (tbl : List (Int × Val))
    (h : idx_by_num items key = some tbl) :
    (∀ n : Int, assocFind tbl n =
      items.reverse.find? (fun it => keyNum it key == some n)) ∧
    (∀ p ∈ tbl, p.2 ∈ items ∧ keyNum p.2 key = some p.1) := by
  constructor
  · intro n
    have := idx_by_num_go_find key items [] tbl h n
    simpa [assocFind, Option.or_none] using this
  · intro p hp
    rcases idx_by_num_go_mem key items [] tbl h p hp with h' | h'
    · exact absurd h' (by simp)
    · exact h'

/-- Witness for C9: on `exItems` (two entries with key 2 around one with no
key), the built table resolves key 2 to the last entry. -/
theorem C9_witness :
    assocFind [(2, Val.dict [("variant_number", Val.int 2), ("text", Val.str "second")])] 2 =
      exItems.reverse.find? (fun it => keyNum it "variant_number" == some 2) ∧
    assocFind [(2, Val.dict [("variant_number", Val.int 2), ("text", Val.str "second")])] 2 =
      some (Val.dict [("variant_number", Val.int 2), ("text", Val.str "second")]) :=
  ⟨(C9_theorem exItems "variant_number"
      [(2, Val.dict [("variant_number", Val.int 2), ("text", Val.str "second")])] rfl).1 2,
   rfl⟩


/-- **C2 counterexample.** A verse whose only syllable is flagged elidable,
with the mask's `hiatus_after` containing the syllable's candidate index 1.
The claim requires the final elision status to be false (counted, real
length marker and category); the code renders it elided (`&nbsp;` mark,
`elide` class) — no hiatus override exists anywhere in the program. -/
theorem C2_counterexample :
    pyGet hiMask "hiatus_after" = some (Val.list [Val.int 1]) ∧
    visualizeParts hiData hiMask =
      some [Part.syl "&nbsp;" ["syl", "elide"] "elision" (Val.str "ar")] := ⟨rfl, rfl⟩

/-- **C2** (corrected). The mask's `hiatus_after` set is never read: the
whole render output is independent of it; and a syllable whose normalized
`elision` flag is true always receives the elided treatment (`&nbsp;` mark,
`elide` class, `elision` title) — the flag is final and no index set can
override it. -/
theorem C2_theorem :
    (∀ (data v : Val) (kvs : List (String × Val)),
      visualize data (Val.dict (("hiatus_after", v) :: kvs)) =
        visualize data (Val.dict kvs)) ∧
    (∀ (gi : Int) (syl : Val) (ict acc : List Int) (ev : Val),
      pyGet syl "elision" = some ev → pyTruthy ev = true →
      renderSyl gi syl ict acc =
        (pyGetD syl "text" (Val.str "")).map
          (fun t => Part.syl "&nbsp;" ["syl", "elide"] "elision" t)) := by
  constructor
  · intro data v kvs
    exact visualize_consKey "hiatus_after" (by decide) (by decide) (by decide)
      (by decide) data v kvs
  · intro gi syl ict acc ev h he
    cases syl <;> simp [pyGet] at h
    subst h
    simp [renderSyl, pyGet, pyGetD, he, sylMarkChar, sylClasses, sylTitleBits]
    rfl

/-- Witness for C2's second conjunct: a concrete elidable syllable keeps the
elided treatment. -/
theorem C2_witness :
    renderSyl 3 (Val.dict [("elision", Val.bool true), ("text", Val.str "ve")]) [3] [3] =
      (pyGetD (Val.dict [("elision", Val.bool true), ("text", Val.str "ve")])
          "text" (Val.str "")).map
        (fun t => Part.syl "&nbsp;" ["syl", "elide"] "elision" t) :=
  C2_theorem.2 3 (Val.dict [("elision", Val.bool true), ("text", Val.str "ve")])
    [3] [3] (Val.bool true) rfl rfl

/-- **C5 counterexample.** Two masks identical except for
`foot_boundary_after` (`[1]` against `[]`), over a verse with one plain
non-elided syllable at position 1. The render output is defined and
identical for both, so no annotation can carry a `footBoundaryAfter` flag
that is true exactly on membership in the set — the claimed flag does not
exist in the output. -/
theorem C5_counterexample :
    (visualize fbData (fbMask (Val.list [Val.int 1]))).isSome = true ∧
    pyGet (fbMask (Val.list [Val.int 1])) "foot_boundary_after" =
      some (Val.list [Val.int 1]) ∧
    pyGet (fbMask (Val.list [])) "foot_boundary_after" = some (Val.list []) ∧
    visualize fbData (fbMask (Val.list [Val.int 1])) =
      visualize fbData (fbMask (Val.list [])) := ⟨rfl, rfl, rfl, rfl⟩

/-- **C5** (corrected). The program produces no `footBoundaryAfter`
annotation at all: the mask's `foot_boundary_after` value is never read,
and the entire output is independent of it. -/
theorem C5_theorem (data v : Val) (kvs : List (String × Val)) :
    visualize data (Val.dict (("foot_boundary_after", v) :: kvs)) =
      visualize data (Val.dict kvs) :=
  visualize_consKey "foot_boundary_after" (by decide) (by decide) (by decide)
    (by decide) data v kvs


/-- **C6** (confirmed). A word-variant pair (with numeric fields, which is
what "pair whose word number" presupposes) whose word number is not in the
word table yields a placeholder unit with empty syllables labelled
`[missing word #N]`; one whose word resolves but whose variant number is
not in the variant table yields a unit with empty syllables labelled
`<word text>[missing variant #M]`; in both cases `buildUnit` returns a
value (raises nothing), and a succeeding pair anywhere in the sequence
leaves every other pair processed exactly as before. -/
theorem C6_theorem :
    (∀ (wb : List (Int × Val)) (pair w0 v0 : Val) (wnum vnum : Int),
      pyGet pair "word" = some w0 → pyToInt w0 = some wnum →
      pyGet pair "variant" = some v0 → pyToInt v0 = some vnum →
      assocFind wb wnum = Option.none →
      buildUnit wb pair =
        some ⟨wnum, vnum, Val.str ("[missing word #" ++ toString wnum ++ "]"), []⟩) ∧
    (∀ (wb : List (Int × Val)) (pair w0 v0 : Val) (wnum vnum : Int)
        (wkvs : List (String × Val)) (vars : List Val) (vtbl : List (Int × Val)),
      pyGet pair "word" = some w0 → pyToInt w0 = some wnum →
      pyGet pair "variant" = some v0 → pyToInt v0 = some vnum →
      assocFind wb wnum = some (Val.dict wkvs) → wkvs ≠ [] →
      asSeq ((dictFind wkvs "variants").getD Val.none) = some vars →
      idx_by_num vars "variant_number" = some vtbl →
      assocFind vtbl vnum = Option.none →
      buildUnit wb pair =
        some ⟨wnum, vnum,
          Val.str (pyStr ((dictFind wkvs "text").getD (Val.str "[word]")) ++
            "[missing variant #" ++ toString vnum ++ "]"), []⟩) ∧
    (∀ (wb : List (Int × Val)) (pre post : List Val) (pair : Val) (u : RUnit),
      buildUnit wb pair = some u →
      (pre ++ pair :: post).mapM (buildUnit wb) =
        (pre.mapM (buildUnit wb)).bind (fun us =>
          (post.mapM (buildUnit wb)).map (fun vs => us ++ u :: vs))) := by
  refine ⟨?_, ?_, ?_⟩
  · intro wb pair w0 v0 wnum vnum hw hwi hv hvi hfind
    simp [buildUnit, hw, hwi, hv, hvi, hfind, pyTruthy]
  · intro wb pair w0 v0 wnum vnum wkvs vars vtbl hw hwi hv hvi hfind hne hseq htbl hvfind
    have htr : pyTruthy (Val.dict wkvs) = true := by
      simp [pyTruthy, List.isEmpty_iff, hne]
    simp only [buildUnit, hw, Option.bind_eq_bind, Option.some_bind, hwi, hv, hvi,
      hfind, Option.getD_some, htr, if_true]
    simp [pyGet, pyGetD, hseq, htbl, hvfind, pyTruthy]
  · intro wb pre post pair u hu
    exact mapM_append_option (buildUnit wb) pair u hu pre post


/-- **C3 counterexample.** A well-formed verse and mask whose only
word-variant pair is an empty dict: `pair.get("word")` is `None`, so
`int(pair.get("word"))` raises a `TypeError` — the transform does raise for
a data-shape irregularity below the (verse, mask) level. -/
theorem C3_counterexample :
    pyGet (Val.dict []) "word" = some Val.none ∧
    pyToInt Val.none = Option.none ∧
    reconstruct_units (Val.dict [("words", Val.list [])])
      (Val.dict [("word-variant", Val.list [Val.dict []])]) = Option.none ∧
    visualize (Val.dict [("words", Val.list [])])
      (Val.dict [("word-variant", Val.list [Val.dict []])]) = Option.none :=
  ⟨rfl, rfl, rfl, rfl⟩

/-- **C3** (corrected). The transform does raise for some data-shape
irregularities below the (verse, mask) level — the counterexample raises on
a pair with a missing `word` field — and the failure set is characterized
exactly: it returns a value if and only if `runOK` holds, i.e. the verse\x27s
`words` iterates to dict entries, every word-variant pair has
int-convertible `word` and `variant` fields, a resolved word\x27s `variants`
iterates to dict entries, a selected variant\x27s `syllables` iterates to
entries whose `syllable_number` converts, and the two index-set values are
iterable or falsy. Everything else degrades: unresolvable references,
malformed boolean-like fields and missing optional text never raise, and
entries inside unreferenced words or unselected variants are never even
examined. -/
theorem C3_theorem (data mask : Val) :
    (visualize data mask).isSome = runOK data mask := by
  rw [← reconstruct_units_isSome_eq, visualize]
  cases hr : reconstruct_units data mask with
  | none => simp
  | some r =>
    obtain ⟨units, ict, acc, ls, du⟩ := r
    simp only [Option.bind_eq_bind, Option.some_bind, Option.isSome_some]
    have hd := reconstruct_units_syllables_dict data mask units ict acc ls du hr
    obtain ⟨ps, hps⟩ := Option.isSome_iff_exists.mp
      (renderUnitsGo_some ict acc units 0 true hd)
    simp [render_units, renderParts, hps]

/-- Witness for C3: the transform succeeds on the well-shaped hiatus
verse/mask, and `runOK` is false on the counterexample\x27s input. -/
theorem C3_witness :
    (visualize hiData hiMask).isSome = true ∧
    runOK (Val.dict [("words", Val.list [])])
      (Val.dict [("word-variant", Val.list [Val.dict []])]) = false := by
  constructor
  · rw [C3_theorem]; rfl
  · rfl

/-- **C10 counterexample.** A syllable lacking `syllable_number` followed by
one whose `syllable_number` is exactly 10^9: both get sort key 10^9, the
stable sort keeps the input order, and the field-less syllable stays BEFORE
a syllable that has the field — so "sorted after all syllables that have
one" fails. -/
theorem C10_counterexample :
    dictFind [("text", Val.str "a")] "syllable_number" = Option.none ∧
    dictFind [("syllable_number", Val.int 1000000000)] "syllable_number" =
      some (Val.int 1000000000) ∧
    sort_sylls [Val.dict [("text", Val.str "a")],
        Val.dict [("syllable_number", Val.int 1000000000)]] =
      some [Val.dict [("text", Val.str "a")],
        Val.dict [("syllable_number", Val.int 1000000000)]] := ⟨rfl, rfl, rfl⟩

/-- **C10** (corrected). The sort key of a syllable defaults to 10^9 when
`syllable_number` is absent, and the sort is stable: the output is ordered
by non-decreasing key (so a field-less syllable comes after every syllable
whose number is below 10^9, though not after one whose number is 10^9 or
more), syllables with equal keys — in particular, equal or missing ones —
keep their relative input order (the filter at every key value is
unchanged), and the output is a permutation of the input. -/
theorem C10_theorem (sylls out : List Val) (h : sort_sylls sylls = some out) :
    List.Pairwise (fun s t => (sylKey s).getD 0 ≤ (sylKey t).getD 0) out ∧
    (∀ k : Int, out.filter (fun s => sylKey s == some k) =
      sylls.filter (fun s => sylKey s == some k)) ∧
    out.Perm sylls := by
  rw [sort_sylls] at h
  cases hk : sylls.mapM (fun s => (sylKey s).map (fun k => (k, s))) with
  | none => rw [hk] at h; simp at h
  | some keyed =>
    rw [hk] at h
    simp only [Option.bind_eq_bind, Option.some_bind, Option.pure_def,
      Option.some_inj] at h
    obtain ⟨hsnd, hkeys⟩ := mapM_keyed sylls keyed hk
    have hmemS : ∀ p ∈ List.insertionSort (fun p q : Int × Val => p.1 ≤ q.1) keyed,
        sylKey p.2 = some p.1 := by
      intro p hp
      exact hkeys p ((List.mem_insertionSort (fun p q : Int × Val => p.1 ≤ q.1)).mp hp)
    haveI htot : IsTotal (Int × Val) (fun p q : Int × Val => p.1 ≤ q.1) :=
      ⟨fun a b => Int.le_total a.1 b.1⟩
    haveI htrans : IsTrans (Int × Val) (fun p q : Int × Val => p.1 ≤ q.1) :=
      ⟨fun a b c hab hbc => le_trans hab hbc⟩
    have hsorted := List.sorted_insertionSort (fun p q : Int × Val => p.1 ≤ q.1) keyed
    refine ⟨?_, ?_, ?_⟩
    · rw [← h]
      rw [List.pairwise_map]
      refine List.Pairwise.imp_of_mem ?_ hsorted
      intro a b ha hb hab
      rw [hmemS a ha, hmemS b hb]
      simpa using hab
    · intro k
      rw [← h, ← hsnd]
      rw [List.filter_map, List.filter_map]
      have h1 : (List.insertionSort (fun p q : Int × Val => p.1 ≤ q.1) keyed).filter
          ((fun s => sylKey s == some k) ∘ Prod.snd) =
          (List.insertionSort (fun p q : Int × Val => p.1 ≤ q.1) keyed).filter
            (fun q => q.1 == k) := by
        refine List.filter_congr ?_
        intro p hp
        simp [Function.comp, hmemS p hp]
      have h2 : keyed.filter ((fun s => sylKey s == some k) ∘ Prod.snd) =
          keyed.filter (fun q => q.1 == k) := by
        refine List.filter_congr ?_
        intro p hp
        simp [Function.comp, hkeys p hp]
      rw [h1, h2, filter_insertionSort]
    · rw [← h, ← hsnd]
      exact (List.perm_insertionSort _ keyed).map Prod.snd

/-- Witness for C10: the corrected statement applied to three concrete
syllables (numbers 2, absent, 1); the filter at key 2 is preserved. -/
theorem C10_witness :
    List.filter (fun s => sylKey s == some 2)
        [Val.dict [("syllable_number", Val.int 1), ("text", Val.str "a")],
         Val.dict [("syllable_number", Val.int 2), ("text", Val.str "b")],
         Val.dict [("text", Val.str "c")]] =
      List.filter (fun s => sylKey s == some 2)
        [Val.dict [("syllable_number", Val.int 2), ("text", Val.str "b")],
         Val.dict [("text", Val.str "c")],
         Val.dict [("syllable_number", Val.int 1), ("text", Val.str "a")]] :=
  (C10_theorem
    [Val.dict [("syllable_number", Val.int 2), ("text", Val.str "b")],
     Val.dict [("text", Val.str "c")],
     Val.dict [("syllable_number", Val.int 1), ("text", Val.str "a")]]
    [Val.dict [("syllable_number", Val.int 1), ("text", Val.str "a")],
     Val.dict [("syllable_number", Val.int 2), ("text", Val.str "b")],
     Val.dict [("text", Val.str "c")]] rfl).2.1 2

/-- **C8** (confirmed). `mask_to_dash_u` maps each `l`/`L` to `-` and each
`s`/`S` to `u`, character for character and case-insensitively, any other
character passing through unchanged, and it is a total function (it cannot
fail); in particular `"llsSL"` converts to `"--uu-"` and a string with no
`l`/`s` letters is unchanged. -/
theorem C8_theorem :
    (∀ s : String, (mask_to_dash_u s).data = s.data.map lsChar) ∧
    mask_to_dash_u "llsSL" = "--uu-" ∧
    mask_to_dash_u "x-q!" = "x-q!" := by
  refine ⟨?_, rfl, rfl⟩
  intro s
  unfold mask_to_dash_u
  rw [data_join, List.map_map]
  have h : ∀ ch : Char,
      (String.data ∘ fun ch => if ch = 'l' ∨ ch = 'L' then "-" else
        if ch = 's' ∨ ch = 'S' then "u" else String.mk [ch]) ch = [lsChar ch] := by
    intro ch
    by_cases h1 : ch = 'l' ∨ ch = 'L'
    · simp [lsChar, h1]
    · by_cases h2 : ch = 's' ∨ ch = 'S' <;> simp [lsChar, h1, h2, String.mk]
  rw [List.map_congr_left (fun ch _ => h ch), join_singletons]

/-- **C4 counterexample.** The claim says the string `"false"` normalizes to
boolean false; in the code `bool(syl.get("elision"))` is Python truthiness,
so the non-empty strings `"false"` and `"0"` normalize to true: a syllable
whose `elision` field is the string `"false"` is rendered as elided. -/
theorem C4_counterexample :
    pyTruthy (Val.str "false") = true ∧ pyTruthy (Val.str "0") = true ∧
    renderSyl 1 (Val.dict [("elision", Val.str "false"), ("length", Val.bool true)]) [] [] =
      some (Part.syl "&nbsp;" ["syl", "elide"] "elision" (Val.str "")) :=
  ⟨rfl, rfl, rfl⟩

/-- **C4** (corrected). The normalization the code applies to the
boolean-like fields `length` and `elision` is Python truthiness: boolean
true, every non-zero number and every non-empty string (including `"true"`,
`"1"`, `"yes"`, `"y"`, but also `"false"` and `"0"`) coerce to true;
boolean false, zero, the empty string and `None` coerce to false; and the
renderer never raises on any dict-shaped syllable, whatever the two fields
hold. -/
theorem C4_theorem :
    (∀ s : String, s ≠ "" → pyTruthy (Val.str s) = true) ∧
    (∀ n : Int, n ≠ 0 → pyTruthy (Val.int n) = true) ∧
    pyTruthy (Val.bool true) = true ∧ pyTruthy (Val.bool false) = false ∧
    pyTruthy (Val.int 0) = false ∧ pyTruthy (Val.str "") = false ∧
    pyTruthy Val.none = false ∧
    (∀ gi kvs ict acc, (renderSyl gi (Val.dict kvs) ict acc).isSome = true) := by
  refine ⟨?_, ?_, rfl, rfl, rfl, rfl, rfl, ?_⟩
  · intro s hs; simp [pyTruthy, hs]
  · intro n hn; simp [pyTruthy, hn]
  · intro gi kvs ict acc
    simp [renderSyl, pyGet, pyGetD]

/-- **C7** (confirmed). For a non-elided syllable the class `both` is
assigned exactly when the index is in both the accent and the ictus set
(and the `accent` class — the tick — is retained in that case, since
`contains "accent"` is true whenever the accent membership holds); the
`icted` class is assigned exactly when only the ictus membership holds;
`accent` and `icted` are never assigned together. The second conjunct
states the same at the level of `renderSyl`'s output. -/
theorem C7_theorem :
    (∀ a i : Bool,
      (sylClasses false a i).contains "both" = (a && i) ∧
      (sylClasses false a i).contains "accent" = a ∧
      (sylClasses false a i).contains "icted" = (i && !a) ∧
      (sylClasses true a i).contains "both" = false ∧
      (sylClasses true a i).contains "icted" = false) ∧
    (∀ gi syl ict acc p, renderSyl gi syl ict acc = some p →
      ((partClasses p).contains "accent" && (partClasses p).contains "icted") = false ∧
      ((partClasses p).contains "elide" = false →
        (partClasses p).contains "both" = (decide (gi ∈ acc) && decide (gi ∈ ict)) ∧
        (partClasses p).contains "accent" = decide (gi ∈ acc) ∧
        (partClasses p).contains "icted" = (decide (gi ∈ ict) && !decide (gi ∈ acc)))) := by
  constructor
  · decide
  · intro gi syl ict acc p h
    cases syl <;> simp [renderSyl, pyGet, pyGetD] at h
    subst h
    simp only [partClasses]
    generalize pyTruthy _ = e
    generalize decide (gi ∈ acc) = a
    generalize decide (gi ∈ ict) = i
    cases e <;> cases a <;> cases i <;> decide

end ApPlautus
